import Mathlib

/-!
Verification development for the Smlr file-deduplication tool.

The embedding below translates the repository's Rust sources
(`src/main.rs`, `src/vfs/mod.rs`) into Lean definitions.  The walker,
catalog, hash and concrete-filesystem modules are declared by `main.rs`
(`mod walker; mod catalog; ...`) but their files are not part of the
sources; wherever such a module decides a property, the corresponding
definition is modelled from the design document and carries a doc
comment saying so.

Machine integers (`u64`, `usize`) are modelled as `Nat`: no arithmetic
performed on them here can overflow in the source (they are identifiers,
lengths and counts that are only compared for equality or order).
-/

namespace Smlr

/-- Embedding of `struct ID { dev: u64, inode: u64 }` from `main.rs`. -/
structure ID where
  dev : Nat
  inode : Nat
deriving DecidableEq, Repr

/-- Embedding of `enum FileType { File, Dir, Symlink, Other }` from `vfs/mod.rs`. -/
inductive FileType
  | File
  | Dir
  | Symlink
  | Other
deriving DecidableEq, Repr

/-- Embedding of the observations `is_file() / is_dir() / is_symlink()`
offered by `std::fs::FileType`, which is all `From<fs::FileType>` inspects. -/
structure OsFileType where
  is_file : Bool
  is_dir : Bool
  is_symlink : Bool
deriving DecidableEq, Repr

/-- Embedding of `impl From<fs::FileType> for FileType` from `vfs/mod.rs`:
an if/else-if chain testing `is_file`, then `is_dir`, then `is_symlink`,
defaulting to `Other`. -/
def fileTypeFrom (ft : OsFileType) : FileType :=
  if ft.is_file then FileType.File
  else if ft.is_dir then FileType.Dir
  else if ft.is_symlink then FileType.Symlink
  else FileType.Other

/-- Embedding of `struct Inode(pub u64)` from `vfs/mod.rs`. -/
structure Inode where
  val : Nat
deriving DecidableEq, Repr

/-- Embedding of `struct DeviceId(pub u64)` from `vfs/mod.rs`. -/
structure DeviceId where
  val : Nat
deriving DecidableEq, Repr

/-- Error kinds of the design's error taxonomy; stands for the payload of
`io::Result` in the trait signatures of `vfs/mod.rs`. -/
inductive FsError
  | notFound
  | permissionDenied
  | crossDeviceLink
  | brokenSymlink
  | readFailureMidHash
  | metadataUnavailable
deriving DecidableEq, Repr

/-- Embedding of `trait MetaData` from `vfs/mod.rs`: `get_len`, `get_type`
and `get_inode` return plain values, while `get_mod_time` and `get_device`
return `io::Result` values (modelled as `Except FsError`).  Modification
time is modelled as a `Nat` timestamp. -/
structure MetaData where
  get_len : Nat
  get_mod_time : Except FsError Nat
  get_type : FileType
  get_inode : Inode
  get_device : Except FsError DeviceId

/-- Building the `ID` of `main.rs` out of a metadata object: the device
half can fail (`get_device` returns a result), the inode half cannot. -/
def physIdentity (md : MetaData) : Except FsError ID :=
  match md.get_device with
  | Except.ok d => Except.ok ⟨d.val, md.get_inode.val⟩
  | Except.error e => Except.error e

/-- Concrete metadata object whose device lookup fails while length, type
and inode are plain values. -/
def mdNoDevice : MetaData :=
  ⟨5, Except.ok 0, FileType.File, ⟨7⟩, Except.error FsError.metadataUnavailable⟩

/-- Concrete metadata object whose device lookup succeeds. -/
def mdWithDevice : MetaData :=
  ⟨5, Except.ok 0, FileType.File, ⟨7⟩, Except.ok ⟨3⟩⟩

/- ## CLI layer (`main.rs`, lines 43-107) -/

/-- Parsed argument matches of the `clap` `App` declared in `main`:
positional `paths` (multiple, required), `--skip`/`-x` (`bad_paths`,
multiple, takes value), `--skip-re`/`-o` (`bad_regex`, multiple, takes
value), `--paranoid`/`-p` (flag). -/
structure ArgMatches where
  paths : List String
  badPaths : List String
  badRegex : List String
  paranoid : Bool
deriving DecidableEq, Repr

/-- Scanner state: either free, or awaiting the value of `-x`/`--skip`
or of `-o`/`--skip-re`. -/
inductive ClapPending
  | free
  | needSkip
  | needSkipRe
deriving DecidableEq, Repr

/-- Does the token start with a dash (i.e. look like an option)? -/
def dashStart (t : String) : Bool :=
  match t.data with
  | [] => false
  | c :: _ => c = '-'

/-- One left-to-right scan over the command line implementing the `clap`
declaration of `main`: `-x`/`--skip` and `-o`/`--skip-re` each consume the
following token as a value (failing when it is absent), `-p`/`--paranoid`
is a plain flag, any other token starting with a dash is an unknown option
(rejected), and every remaining token is a positional path. -/
def clapScan : List String → ClapPending → ArgMatches → Option ArgMatches
  | [], ClapPending.free, m => some m
  | [], ClapPending.needSkip, _ => none
  | [], ClapPending.needSkipRe, _ => none
  | v :: rest, ClapPending.needSkip, m =>
      clapScan rest ClapPending.free { m with badPaths := m.badPaths ++ [v] }
  | v :: rest, ClapPending.needSkipRe, m =>
      clapScan rest ClapPending.free { m with badRegex := m.badRegex ++ [v] }
  | t :: rest, ClapPending.free, m =>
      if t = "-x" ∨ t = "--skip" then clapScan rest ClapPending.needSkip m
      else if t = "-o" ∨ t = "--skip-re" then clapScan rest ClapPending.needSkipRe m
      else if t = "-p" ∨ t = "--paranoid" then
        clapScan rest ClapPending.free { m with paranoid := true }
      else if dashStart t then none
      else clapScan rest ClapPending.free { m with paths := m.paths ++ [t] }

/-- `App::get_matches` for the argument set of `main`: scan the command
line, then enforce `required(true)` on the positional `paths`. -/
def parseArgv (argv : List String) : Option ArgMatches :=
  match clapScan argv ClapPending.free ⟨[], [], [], false⟩ with
  | some m => if m.paths.isEmpty then none else some m
  | none => none

/-- `main.rs` lines 78-81: `dirs_n` is the `bad_paths` values when the
argument is present and `vec![]` otherwise. -/
def dirsNOf (m : ArgMatches) : List String :=
  if m.badPaths.isEmpty then [] else m.badPaths

/-- `main.rs` lines 82-85: `pats_n` is the `bad_regex` values when the
argument is present and `vec![]` otherwise. -/
def patsNOf (m : ArgMatches) : List String :=
  if m.badRegex.isEmpty then [] else m.badRegex

/-- Names of the arguments declared on the `clap` `App` in `main.rs`
(lines 44-74). -/
def definedArgs : List String := ["paths", "bad_paths", "bad_regex", "paranoid"]

/-- Names of the arguments actually queried on `matches` in `main.rs`
(lines 76-85): `values_of_os("paths")`, `is_present`/`values_of_os`
(`"bad_paths"`), `is_present`/`values_of` (`"bad_regex"`).  The
`"paranoid"` argument is never queried. -/
def consumedArgs : List String := ["paths", "bad_paths", "bad_regex"]

/-- The two digest algorithms named by the CLI help text
("Use SHA-3 to hash files instead of MD5"). -/
inductive DigestAlgo
  | md5
  | sha3
deriving DecidableEq, Repr

/-- Modelled from the spec: the catalog is generic over a pluggable digest
capability selected at startup.  In `main.rs` the catalog is constructed
by `FileCatalog::new()` with no algorithm argument, and the parsed matches
are never queried for `"paranoid"`, so the construction cannot depend on
the flag: whatever arguments were parsed, the default algorithm (MD5 per
the help text) is the one selected. -/
def mainDigestAlgo (_m : ArgMatches) : DigestAlgo := DigestAlgo.md5

/- ## Filesystem model and walker -/

/-- A filesystem node: an absolute path (list of components), its type,
its physical identity and, for regular files, its byte content.
Modelled from the spec: the concrete filesystem implementations
(`real_fs.rs` / `test_fs.rs`) are not among the sources. -/
structure FsNode where
  path : List String
  ntype : FileType
  nid : ID
  content : List Nat
deriving DecidableEq, Repr

/-- A filesystem state: its nodes, the directories whose listing is
denied, and the children whose per-entry lookup fails.  Modelled from the
spec (mock filesystem). -/
structure FsState where
  nodes : List FsNode
  denied : List (List String)
  unreadable : List (List String)
deriving DecidableEq, Repr

/-- `q` is a direct child path of `p`. -/
def isChildOf (q p : List String) : Bool :=
  decide (q.length = p.length + 1) && decide (q.take p.length = p)

/-- Modelled from the spec: `listImmediateChildren(dir)` enumerates only
the direct children of `dir` (the trait doc comment in `vfs/mod.rs` says
"recursively", an ambiguity the design document resolves to non-recursive
listing; the concrete implementations are not among the sources). -/
def listDir (fs : FsState) (p : List String) : List FsNode :=
  fs.nodes.filter (fun n => isChildOf n.path p)

/-- The result-typed listing operation, with the shape of
`fn list_dir(..) -> io::Result<Box<Iterator<Item = io::Result<..>>>>`
from `trait VFS` in `vfs/mod.rs`: the listing itself can fail, and each
child is delivered as its own result. -/
def listDirR (fs : FsState) (p : List String) :
    Except FsError (List (Except FsError FsNode)) :=
  if fs.denied.contains p then Except.error FsError.permissionDenied
  else Except.ok ((listDir fs p).map (fun n =>
    if fs.unreadable.contains n.path then Except.error FsError.metadataUnavailable
    else Except.ok n))

/-- Base filename of a path (its last component). -/
def baseNameOf (p : List String) : String := (p.getLast?).getD ""

/-- Modelled from the spec: a file is excluded when its base filename
matches one of the blacklisted patterns; `rmatch` stands for the regex
matcher. -/
def patExcluded (rmatch : String → String → Bool) (pats : List String)
    (p : List String) : Bool :=
  pats.any (fun pat => rmatch pat (baseNameOf p))

/-- Concatenate a list of (files, errors) pairs componentwise. -/
def gatherPairs (l : List (List FsNode × List FsError)) :
    List FsNode × List FsError :=
  l.foldr (fun a b => (a.1 ++ b.1, a.2 ++ b.2)) ([], [])

/-- Modelled from the spec: how the walker handles one child result.
An error child is reported and contributes no files; a directory child is
recursed into (via `w`) unless its exact path is blacklisted; a regular
file is produced unless its filename matches a blacklisted pattern;
symlinks and other node types are always skipped. -/
def walkStep (w : List String → List FsNode × List FsError)
    (skipDirs : List (List String)) (excluded : List String → Bool)
    (r : Except FsError FsNode) : List FsNode × List FsError :=
  match r with
  | Except.error e => ([], [e])
  | Except.ok n =>
    match n.ntype with
    | FileType.Dir => if skipDirs.contains n.path then ([], []) else w n.path
    | FileType.File => if excluded n.path then ([], []) else ([n], [])
    | FileType.Symlink => ([], [])
    | FileType.Other => ([], [])

/-- Modelled from the spec: the walker processes every child result of a
directory, concatenating produced files and reported errors. -/
def walkChildren (w : List String → List FsNode × List FsError)
    (skipDirs : List (List String)) (excluded : List String → Bool)
    (children : List (Except FsError FsNode)) : List FsNode × List FsError :=
  gatherPairs (children.map (walkStep w skipDirs excluded))

/-- Modelled from the spec: recursive traversal of one directory.  The
listing capability `ld` is injected (as the `VFS` is injected into
`DirWalker`); a failed listing is reported and ends only this directory;
recursion is bounded by `fuel` (any bound at least the tree depth is
enough). -/
def walkDir (ld : List String → Except FsError (List (Except FsError FsNode)))
    (skipDirs : List (List String)) (excluded : List String → Bool) :
    Nat → List String → List FsNode × List FsError
  | 0, _ => ([], [])
  | fuel + 1, p =>
    match ld p with
    | Except.error e => ([], [e])
    | Except.ok children =>
        walkChildren (fun q => walkDir ld skipDirs excluded fuel q)
          skipDirs excluded children

/-- Modelled from the spec: `traverse_all` walks every root in the given
order and concatenates the results. -/
def traverseAll (ld : List String → Except FsError (List (Except FsError FsNode)))
    (skipDirs : List (List String)) (excluded : List String → Bool)
    (fuel : Nat) (roots : List (List String)) : List FsNode × List FsError :=
  gatherPairs (roots.map (fun r => walkDir ld skipDirs excluded fuel r))

/- ## Catalog -/

/-- `const FIRST_K_BYTES: usize = 32;` from `main.rs`. -/
def FIRST_K_BYTES : Nat := 32

/-- Modelled from the spec: `get_first_bytes` reads the first
`FIRST_K_BYTES` bytes of the file (the whole file when smaller); the
concrete `File` implementations are not among the sources. -/
def get_first_bytes (content : List Nat) : List Nat :=
  content.take FIRST_K_BYTES

/-- A file handle as consumed by the catalog: path, physical identity,
stat size and (for digest computation) the file's bytes. -/
structure FileHandle where
  path : List String
  fid : ID
  size : Nat
  content : List Nat
deriving DecidableEq, Repr

/-- A catalog entry: physical identity, alias paths, size, content and
the two lazily computed digests (`none` = never computed, i.e. those
bytes were never read for this purpose).  Modelled from the spec
(`catalog.rs` is not among the sources). -/
structure CatEntry where
  eid : ID
  paths : List (List String)
  size : Nat
  content : List Nat
  pDig : Option Nat
  fDig : Option Nat
deriving DecidableEq, Repr

/-- The catalog state: its entries in insertion order. -/
abbrev Catalog := List CatEntry

/-- The size bucket of `s`: all entries of size `s`. -/
def bucketOf (c : Catalog) (s : Nat) : Catalog :=
  c.filter (fun e => decide (e.size = s))

/-- Number of entries of size `s` whose lazily computed first-bytes digest
is `d` (the size of a partial-digest group within the bucket). -/
def pCount (c : Catalog) (s : Nat) (d : Option Nat) : Nat :=
  (c.filter (fun e => decide (e.size = s ∧ e.pDig = d))).length

/-- Is a physical identity already recorded? -/
def hasId (c : Catalog) (i : ID) : Bool :=
  c.any (fun e => decide (e.eid = i))

/-- Append an alias path on the entry carrying identity `i`. -/
def addAlias (i : ID) (p : List String) (c : Catalog) : Catalog :=
  c.map (fun e => if e.eid = i then { e with paths := e.paths ++ [p] } else e)

/-- One entry's treatment during the first-bytes pass: an entry of the
size-`s` bucket still lacking a first-bytes digest has one computed, the
digest `D` of `get_first_bytes` of its content; every other entry is
untouched. -/
def pStep (D : List Nat → Nat) (s : Nat) (e : CatEntry) : CatEntry :=
  if e.size = s ∧ e.pDig = none
  then { e with pDig := some (D (get_first_bytes e.content)) } else e

/-- Modelled from the spec: once the size-`s` bucket holds at least two
entries, every entry of the bucket still lacking a first-bytes digest has
one computed. -/
def computeP (D : List Nat → Nat) (s : Nat) (c : Catalog) : Catalog :=
  c.map (pStep D s)

/-- One entry's treatment during the full-digest pass over catalog
snapshot `c`: an entry of the size-`s` bucket lacking a full digest whose
first-bytes digest group (within the bucket) holds at least two entries
has its full digest computed, the digest of its whole content; every
other entry (in particular a member of a singleton group) is untouched. -/
def fStep (D : List Nat → Nat) (s : Nat) (c : Catalog) (e : CatEntry) : CatEntry :=
  if e.size = s ∧ e.fDig = none ∧ 2 ≤ pCount c s e.pDig
  then { e with fDig := some (D e.content) } else e

/-- Modelled from the spec: within the size-`s` bucket, entries are
grouped by first-bytes digest; every member of a group of at least two
that still lacks a full digest has one computed.  Singleton groups are
left alone. -/
def computeF (D : List Nat → Nat) (s : Nat) (c : Catalog) : Catalog :=
  c.map (fStep D s c)

/-- The fresh entry created for a handle: its identity, its path as sole
alias, its size and content, and no digests computed. -/
def newEntry (h : FileHandle) : CatEntry :=
  ⟨h.fid, [h.path], h.size, h.content, none, none⟩

/-- Modelled from the spec: `insert`.  A handle whose identity is already
recorded only appends an alias path.  Otherwise a fresh entry (no digests)
joins the catalog; when its size bucket now holds at least two entries,
first-bytes digests are computed for the bucket and then full digests for
the groups of at least two. -/
def insert (D : List Nat → Nat) (h : FileHandle) (c : Catalog) : Catalog :=
  if hasId c h.fid then addAlias h.fid h.path c
  else if 2 ≤ (bucketOf (c ++ [newEntry h]) h.size).length
  then computeF D h.size (computeP D h.size (c ++ [newEntry h]))
  else c ++ [newEntry h]

/-- Folding `insert` over a handle sequence starting from the empty
catalog. -/
def insertAll (D : List Nat → Nat) (hs : List FileHandle) : Catalog :=
  hs.foldl (fun c h => insert D h c) []

/-- Group key used by the duplicate-set query: size, first-bytes digest,
full digest. -/
def dupKey (e : CatEntry) : Nat × Option Nat × Option Nat :=
  (e.size, e.pDig, e.fDig)

/-- Modelled from the spec: the query-time enumeration of duplicate sets:
groups of at least two entries sharing size, first-bytes digest and a
computed full digest. -/
def dupGroups (c : Catalog) : List Catalog :=
  ((c.map dupKey).dedup).filterMap (fun k =>
    if k.2.2.isSome then
      let g := c.filter (fun e => decide (dupKey e = k))
      if 2 ≤ g.length then some g else none
    else none)

/-- The duplicate-set query of the design (`enumerateDuplicateSets`). -/
def enumerateDuplicateSets (c : Catalog) : List Catalog := dupGroups c

/- ## The main pipeline (`main.rs`, lines 91-104) -/

/-- The handle the pipeline builds for a traversed file node. -/
def handleOf (n : FsNode) : FileHandle :=
  ⟨n.path, n.nid, n.content.length, n.content⟩

/-- The file-handle sequence produced by the walker over filesystem state
`fs`, in traversal order. -/
def scanFiles (fs : FsState) (skipDirs : List (List String))
    (excluded : List String → Bool) (fuel : Nat)
    (roots : List (List String)) : List FileHandle :=
  (traverseAll (listDirR fs) skipDirs excluded fuel roots).1.map handleOf

/-- Embedding of the insertion loop of `main`
(`for file in &files { fc.insert(file); }`), instrumented with the exact
sequence of handles passed to `insert`. -/
def mainLoop (D : List Nat → Nat) (files : List FileHandle) :
    Catalog × List FileHandle :=
  files.foldl (fun st f => (insert D f st.1, st.2 ++ [f])) (([] : Catalog), [])

/-- One whole run: traverse, insert every handle, then query the
duplicate sets. -/
def scanDupes (D : List Nat → Nat) (fs : FsState)
    (skipDirs : List (List String)) (excluded : List String → Bool)
    (fuel : Nat) (roots : List (List String)) : List Catalog :=
  enumerateDuplicateSets (insertAll D (scanFiles fs skipDirs excluded fuel roots))

/- ## Concrete example data -/

/-- A directory node `"/a/b"`. -/
def nodeB : FsNode := ⟨["a", "b"], FileType.Dir, ⟨1, 1⟩, []⟩

/-- A file node `"/a/b/c"`, two levels below the root `"/a"`. -/
def nodeC : FsNode := ⟨["a", "b", "c"], FileType.File, ⟨1, 2⟩, [7]⟩

/-- A small tree: directory `/a/b` holding file `/a/b/c`. -/
def fsEx : FsState := ⟨[nodeB, nodeC], [], []⟩

/-- A sample digest function for concrete evaluations. -/
def sampleD : List Nat → Nat := fun l => l.foldl (fun a b => a * 31 + b) 7

/-- A sample handle. -/
def sampleH : FileHandle := ⟨["a", "x"], ⟨1, 5⟩, 1, [9]⟩

/-- The entry created by inserting `sampleH` into an empty catalog. -/
def sampleE : CatEntry := ⟨⟨1, 5⟩, [["a", "x"]], 1, [9], none, none⟩

/-- The example tree with listing of `/a/b` denied. -/
def fsDenied : FsState := ⟨[nodeB, nodeC], [["a", "b"]], []⟩

/-- The catalog invariant behind the laziness claims: an entry carries a
first-bytes digest only when its size bucket holds at least two entries,
and a full digest only when at least two entries of its bucket share its
first-bytes digest (which is then computed). -/
def CatInv (c : Catalog) : Prop :=
  ∀ e ∈ c,
    (e.pDig.isSome = true → 2 ≤ (bucketOf c e.size).length) ∧
    (e.fDig.isSome = true →
      e.pDig.isSome = true ∧ 2 ≤ pCount c e.size e.pDig)

/- ## Theorems -/

/-- `gatherPairs` splits over list append. -/
theorem gatherPairs_append (l1 l2 : List (List FsNode × List FsError)) :
    gatherPairs (l1 ++ l2) =
      ((gatherPairs l1).1 ++ (gatherPairs l2).1,
       (gatherPairs l1).2 ++ (gatherPairs l2).2) := by
  induction l1 with
  | nil => simp [gatherPairs]
  | cons a t ih =>
      simp only [List.cons_append, gatherPairs, List.foldr_cons] at *
      rw [ih]
      simp [List.append_assoc]

/-- `walkChildren` splits over list append. -/
theorem walkChildren_append (w : List String → List FsNode × List FsError)
    (sd : List (List String)) (ex : List String → Bool)
    (xs ys : List (Except FsError FsNode)) :
    walkChildren w sd ex (xs ++ ys) =
      ((walkChildren w sd ex xs).1 ++ (walkChildren w sd ex ys).1,
       (walkChildren w sd ex xs).2 ++ (walkChildren w sd ex ys).2) := by
  unfold walkChildren
  rw [List.map_append, gatherPairs_append]

/-- Claim C9: the conversion from an OS file type to the program's
`FileType` is total and classifies in a fixed priority order: `File`
exactly when `is_file`, else `Dir` exactly when `is_dir`, else `Symlink`
exactly when `is_symlink`, and `Other` in every remaining case. -/
theorem fileTypeFrom_priority_order (ft : OsFileType) :
    (fileTypeFrom ft = FileType.File ↔ ft.is_file = true) ∧
    (fileTypeFrom ft = FileType.Dir ↔
      (ft.is_file = false ∧ ft.is_dir = true)) ∧
    (fileTypeFrom ft = FileType.Symlink ↔
      (ft.is_file = false ∧ ft.is_dir = false ∧ ft.is_symlink = true)) ∧
    (fileTypeFrom ft = FileType.Other ↔
      (ft.is_file = false ∧ ft.is_dir = false ∧ ft.is_symlink = false)) := by
  rcases ft with ⟨f, d, s⟩
  cases f <;> cases d <;> cases s <;> decide

/-- Claim C10: once a stat has produced a metadata object, its length,
type and inode are plain values while modification time and device id are
fallible results; consequently the physical identity is obtained exactly
when the device lookup succeeds, its inode half always being available,
and a metadata object can have length, type and inode defined while its
device half (hence its physical identity) is unobtainable. -/
theorem metadata_infallible_and_fallible_parts :
    (∀ (md : MetaData) (d : DeviceId), md.get_device = Except.ok d →
        physIdentity md = Except.ok ⟨d.val, md.get_inode.val⟩) ∧
    (∀ (md : MetaData) (er : FsError), md.get_device = Except.error er →
        physIdentity md = Except.error er) ∧
    (mdNoDevice.get_len = 5 ∧ mdNoDevice.get_type = FileType.File ∧
      mdNoDevice.get_inode = ⟨7⟩ ∧
      physIdentity mdNoDevice = Except.error FsError.metadataUnavailable) := by
  refine ⟨?_, ?_, rfl, rfl, rfl, rfl⟩
  · intro md d hd
    unfold physIdentity
    rw [hd]
  · intro md er he
    unfold physIdentity
    rw [he]

/-- Witness for C10 at a concrete metadata object whose device lookup
succeeds. -/
theorem metadata_infallible_and_fallible_parts_witness :
    physIdentity mdWithDevice = Except.ok ⟨3, 7⟩ :=
  metadata_infallible_and_fallible_parts.1 mdWithDevice ⟨3⟩ rfl

/-- Claim C1 (code bug): `main` accepts `--paranoid`/`-p` and its help
text promises SHA-3 instead of MD5, but the parsed matches are never
queried for the flag and `FileCatalog::new()` receives no algorithm, so
the digest algorithm threaded into the catalog is the default MD5 for
every invocation, paranoid or not. -/
theorem paranoid_flag_has_no_effect :
    ∃ m : ArgMatches, parseArgv ["-p", "somedir"] = some m ∧
      m.paranoid = true ∧
      mainDigestAlgo m = DigestAlgo.md5 ∧
      ∀ m2 : ArgMatches, mainDigestAlgo m2 = DigestAlgo.md5 := by
  refine ⟨⟨["somedir"], [], [], true⟩, by decide, rfl, rfl, fun m2 => rfl⟩

/-- Claim C8 (code bug): the CLI requires at least one positional path,
accepts `--skip`/`-x` and `--skip-re`/`-o` each zero or more times
(defaulting to empty lists when omitted) and accepts `--paranoid`/`-p`;
but the four accepted arguments are not exactly the ones consumed by the
core: `"paranoid"` is declared yet never queried in `main.rs`. -/
theorem cli_surface_and_unconsumed_paranoid :
    parseArgv [] = none ∧
    parseArgv ["-x", "only-a-skip-value"] = none ∧
    parseArgv ["root"] = some ⟨["root"], [], [], false⟩ ∧
    dirsNOf ⟨["root"], [], [], false⟩ = [] ∧
    patsNOf ⟨["root"], [], [], false⟩ = [] ∧
    parseArgv ["-x", "s1", "--skip", "s2", "-o", "r1", "--skip-re", "r2",
               "-p", "root"] =
      some ⟨["root"], ["s1", "s2"], ["r1", "r2"], true⟩ ∧
    dirsNOf ⟨["root"], ["s1", "s2"], ["r1", "r2"], true⟩ = ["s1", "s2"] ∧
    "paranoid" ∈ definedArgs ∧ "paranoid" ∉ consumedArgs := by
  decide

/-- Claim C4: the first-bytes read hashes exactly `min(K, fileSize)`
bytes, where `K` is the fixed constant `FIRST_K_BYTES = 32` of `main.rs`
(and `computeP` digests exactly `get_first_bytes` of an entry's
content). -/
theorem first_bytes_reads_min_k (content : List Nat) :
    (get_first_bytes content).length = min FIRST_K_BYTES content.length ∧
    FIRST_K_BYTES = 32 := by
  constructor
  · simp [get_first_bytes]
  · rfl

/-- Claim C3: the listing operation enumerates only direct children of a
directory (every listed node's path extends the directory's path by
exactly one component), while deeper descendants are reached by the
walker's own recursion: in the example tree, the file `/a/b/c` is produced
by walking `/a` yet absent from the listing of `/a`. -/
theorem list_dir_immediate_children_only :
    (∀ (fs : FsState) (p : List String) (n : FsNode), n ∈ listDir fs p →
        n.path.length = p.length + 1 ∧ n.path.take p.length = p) ∧
    nodeC ∈ (walkDir (listDirR fsEx) [] (fun _ => false) 3 ["a"]).1 ∧
    nodeC ∉ listDir fsEx ["a"] := by
  refine ⟨?_, by decide, by decide⟩
  intro fs p n hn
  unfold listDir at hn
  rw [List.mem_filter] at hn
  have h2 := hn.2
  unfold isChildOf at h2
  rw [Bool.and_eq_true, decide_eq_true_eq, decide_eq_true_eq] at h2
  exact h2

/-- Witness for C3 at the example tree: `/a/b` is listed as a direct
child of `/a`. -/
theorem list_dir_immediate_children_only_witness :
    nodeB.path.length = ["a"].length + 1 ∧
    nodeB.path.take ["a"].length = ["a"] :=
  list_dir_immediate_children_only.1 fsEx ["a"] nodeB (by decide)

/-- Claim C5: filesystem failures are recoverable error values: a child
delivered as an error is reported while every file from the surrounding
children is still produced (the walk of one directory loses nothing to a
bad sibling), and a directory whose listing fails yields an error report
rather than aborting. -/
theorem per_entry_errors_not_fatal
    (w : List String → List FsNode × List FsError)
    (sd : List (List String)) (ex : List String → Bool)
    (xs ys : List (Except FsError FsNode)) (e e2 : FsError)
    (ld : List String → Except FsError (List (Except FsError FsNode)))
    (fuel : Nat) (p : List String) (hp : ld p = Except.error e2) :
    (walkChildren w sd ex (xs ++ Except.error e :: ys)).1 =
      (walkChildren w sd ex xs).1 ++ (walkChildren w sd ex ys).1 ∧
    (walkChildren w sd ex (xs ++ Except.error e :: ys)).2 =
      (walkChildren w sd ex xs).2 ++ e :: (walkChildren w sd ex ys).2 ∧
    walkDir ld sd ex (fuel + 1) p = ([], [e2]) := by
  have hsplit := walkChildren_append w sd ex xs (Except.error e :: ys)
  have hcons : walkChildren w sd ex (Except.error e :: ys) =
      ((walkChildren w sd ex ys).1, e :: (walkChildren w sd ex ys).2) := by
    show gatherPairs (walkStep w sd ex (Except.error e) ::
      (ys.map (walkStep w sd ex))) = _
    have hstep : walkStep w sd ex (Except.error e) = ([], [e]) := rfl
    simp [gatherPairs, hstep, walkChildren]
  refine ⟨?_, ?_, ?_⟩
  · rw [hsplit, hcons]
  · rw [hsplit, hcons]
  · show walkDir ld sd ex (fuel + 1) p = ([], [e2])
    unfold walkDir
    rw [hp]

/-- Witness for C5: a denied listing of `/a/b` is reported as a
permission error, and an error entry among concrete children leaves its
siblings' files produced. -/
theorem per_entry_errors_not_fatal_witness :
    (walkChildren (fun _ => ([], [])) [] (fun _ => false)
        ([Except.ok nodeC] ++
          Except.error FsError.metadataUnavailable :: [Except.ok nodeC])).1 =
      (walkChildren (fun _ => ([], [])) [] (fun _ => false) [Except.ok nodeC]).1 ++
      (walkChildren (fun _ => ([], [])) [] (fun _ => false) [Except.ok nodeC]).1 ∧
    (walkChildren (fun _ => ([], [])) [] (fun _ => false)
        ([Except.ok nodeC] ++
          Except.error FsError.metadataUnavailable :: [Except.ok nodeC])).2 =
      (walkChildren (fun _ => ([], [])) [] (fun _ => false) [Except.ok nodeC]).2 ++
      FsError.metadataUnavailable ::
        (walkChildren (fun _ => ([], [])) [] (fun _ => false) [Except.ok nodeC]).2 ∧
    walkDir (listDirR fsDenied) [] (fun _ => false) 3 ["a", "b"] =
      ([], [FsError.permissionDenied]) :=
  per_entry_errors_not_fatal (fun _ => ([], [])) [] (fun _ => false)
    [Except.ok nodeC] [Except.ok nodeC] FsError.metadataUnavailable
    FsError.permissionDenied (listDirR fsDenied) 2 ["a", "b"] rfl

/-- Accumulator form of the instrumented insertion loop of `main`. -/
theorem mainLoop_foldl_acc (D : List Nat → Nat) (files : List FileHandle) :
    ∀ (c : Catalog) (acc : List FileHandle),
      files.foldl (fun st f => (insert D f st.1, st.2 ++ [f])) (c, acc) =
        (files.foldl (fun c2 f => insert D f c2) c, acc ++ files) := by
  induction files with
  | nil => intro c acc; simp
  | cons f t ih =>
      intro c acc
      rw [List.foldl_cons, List.foldl_cons, ih]
      simp

/-- Claim C6: every handle produced by the traversal is passed to
`insert` exactly once, one at a time, in traversal order (the insertion
log of the loop is precisely the traversal output), and the duplicate
sets are obtained by a query on the final catalog after all insertions. -/
theorem every_handle_inserted_once_in_order (D : List Nat → Nat)
    (fs : FsState) (sd : List (List String)) (ex : List String → Bool)
    (fuel : Nat) (roots : List (List String)) :
    (mainLoop D (scanFiles fs sd ex fuel roots)).2 =
      scanFiles fs sd ex fuel roots ∧
    (mainLoop D (scanFiles fs sd ex fuel roots)).1 =
      insertAll D (scanFiles fs sd ex fuel roots) ∧
    scanDupes D fs sd ex fuel roots =
      enumerateDuplicateSets ((mainLoop D (scanFiles fs sd ex fuel roots)).1) := by
  have h := mainLoop_foldl_acc D (scanFiles fs sd ex fuel roots) [] []
  unfold mainLoop insertAll scanDupes
  rw [h]
  simp [insertAll]

/-- Claim C7: scanning the same unmodified tree twice (identical
filesystem state and identical configuration) yields identical duplicate
set groupings. -/
theorem scan_unmodified_tree_idempotent (D : List Nat → Nat)
    (fs1 fs2 : FsState) (sd : List (List String)) (ex : List String → Bool)
    (fuel : Nat) (roots : List (List String)) (hfs : fs1 = fs2) :
    scanDupes D fs1 sd ex fuel roots = scanDupes D fs2 sd ex fuel roots := by
  rw [hfs]

/-- Witness for C7 at the example tree. -/
theorem scan_unmodified_tree_idempotent_witness :
    scanDupes sampleD fsEx [] (fun _ => false) 3 [["a"]] =
      scanDupes sampleD fsEx [] (fun _ => false) 3 [["a"]] :=
  scan_unmodified_tree_idempotent sampleD fsEx fsEx [] (fun _ => false) 3
    [["a"]] rfl

/- ## Laziness invariant of the catalog (claim C2) -/

/-- A map preserving a predicate's value keeps the filtered count. -/
theorem length_filter_map_eq {α : Type} (f : α → α) (p : α → Bool)
    (hf : ∀ e, p (f e) = p e) (c : List α) :
    ((c.map f).filter p).length = (c.filter p).length := by
  induction c with
  | nil => rfl
  | cons a t ih =>
      simp only [List.map_cons, List.filter_cons, hf]
      cases hpa : p a <;> simp [hpa, ih]

/-- A map that never falsifies a predicate cannot shrink the filtered
count. -/
theorem length_filter_le_map {α : Type} (f : α → α) (p : α → Bool)
    (hf : ∀ e, p e = true → p (f e) = true) (c : List α) :
    (c.filter p).length ≤ ((c.map f).filter p).length := by
  induction c with
  | nil => exact Nat.le_refl 0
  | cons a t ih =>
      simp only [List.map_cons, List.filter_cons]
      cases hpa : p a
      · cases hpfa : p (f a)
        · simpa using ih
        · simp only [if_pos rfl]
          simp
          exact Nat.le_succ_of_le ih
      · rw [hf a hpa]
        simp
        exact ih

/-- A stronger predicate never counts more than a weaker one. -/
theorem length_filter_mono {α : Type} (p q : α → Bool)
    (hpq : ∀ e, p e = true → q e = true) (c : List α) :
    (c.filter p).length ≤ (c.filter q).length := by
  induction c with
  | nil => exact Nat.le_refl 0
  | cons a t ih =>
      simp only [List.filter_cons]
      cases hpa : p a
      · cases hqa : q a
        · simpa using ih
        · simp
          exact Nat.le_succ_of_le ih
      · rw [hpq a hpa]
        simp
        exact ih

/-- Appending entries never shrinks a filtered count. -/
theorem length_filter_le_append {α : Type} (p : α → Bool) (c c2 : List α) :
    (c.filter p).length ≤ ((c ++ c2).filter p).length := by
  rw [List.filter_append, List.length_append]
  exact Nat.le_add_right _ _

/-- A first-bytes digest group is contained in its size bucket. -/
theorem pCount_le_bucket (c : Catalog) (s : Nat) (d : Option Nat) :
    pCount c s d ≤ (bucketOf c s).length := by
  unfold pCount bucketOf
  apply length_filter_mono
  intro e hpe
  rw [decide_eq_true_eq] at hpe ⊢
  exact hpe.1

/-- `pStep` never changes an entry's size. -/
theorem pStep_size (D : List Nat → Nat) (s : Nat) (e : CatEntry) :
    (pStep D s e).size = e.size := by
  unfold pStep
  by_cases hc : e.size = s ∧ e.pDig = none <;> simp [hc]

/-- `pStep` never changes an entry's full digest. -/
theorem pStep_fDig (D : List Nat → Nat) (s : Nat) (e : CatEntry) :
    (pStep D s e).fDig = e.fDig := by
  unfold pStep
  by_cases hc : e.size = s ∧ e.pDig = none <;> simp [hc]

/-- `pStep` leaves an entry with a computed first-bytes digest
untouched. -/
theorem pStep_of_some (D : List Nat → Nat) (s : Nat) (e : CatEntry)
    (x : Nat) (hx : e.pDig = some x) : pStep D s e = e := by
  unfold pStep
  rw [if_neg]
  intro hc
  rw [hc.2] at hx
  cases hx

/-- `fStep` never changes an entry's size. -/
theorem fStep_size (D : List Nat → Nat) (s : Nat) (c : Catalog)
    (e : CatEntry) : (fStep D s c e).size = e.size := by
  unfold fStep
  by_cases hc : e.size = s ∧ e.fDig = none ∧ 2 ≤ pCount c s e.pDig <;> simp [hc]

/-- `fStep` never changes an entry's first-bytes digest. -/
theorem fStep_pDig (D : List Nat → Nat) (s : Nat) (c : Catalog)
    (e : CatEntry) : (fStep D s c e).pDig = e.pDig := by
  unfold fStep
  by_cases hc : e.size = s ∧ e.fDig = none ∧ 2 ≤ pCount c s e.pDig <;> simp [hc]

/-- The first-bytes pass keeps every bucket's length. -/
theorem bucketOf_computeP (D : List Nat → Nat) (s2 : Nat) (c : Catalog)
    (s : Nat) :
    (bucketOf (computeP D s2 c) s).length = (bucketOf c s).length := by
  unfold bucketOf computeP
  exact length_filter_map_eq _ _ (fun e => by simp [pStep_size]) c

/-- The full-digest pass keeps every bucket's length. -/
theorem bucketOf_computeF (D : List Nat → Nat) (s2 : Nat) (c0 c : Catalog)
    (s : Nat) :
    (bucketOf (c.map (fStep D s2 c0)) s).length = (bucketOf c s).length := by
  unfold bucketOf
  exact length_filter_map_eq _ _ (fun e => by simp [fStep_size]) c

/-- The full-digest pass keeps every first-bytes digest group's size. -/
theorem pCount_computeF (D : List Nat → Nat) (s2 : Nat) (c0 c : Catalog)
    (s : Nat) (d : Option Nat) :
    pCount (c.map (fStep D s2 c0)) s d = pCount c s d := by
  unfold pCount
  exact length_filter_map_eq _ _ (fun e => by simp [fStep_size, fStep_pDig]) c

/-- The first-bytes pass never shrinks the group of a computed digest. -/
theorem pCount_le_computeP (D : List Nat → Nat) (s2 : Nat) (c : Catalog)
    (s : Nat) (x : Nat) :
    pCount c s (some x) ≤ pCount (computeP D s2 c) s (some x) := by
  unfold pCount computeP
  apply length_filter_le_map
  intro e hpe
  have hx : e.pDig = some x := (of_decide_eq_true hpe).2
  have hne : pStep D s2 e = e := pStep_of_some D s2 e x hx
  rw [hne]
  exact hpe

/-- After the first-bytes pass, every entry of the bucket has a computed
first-bytes digest. -/
theorem computeP_mem_isSome (D : List Nat → Nat) (s : Nat) (c : Catalog) :
    ∀ e ∈ computeP D s c, e.size = s → e.pDig.isSome = true := by
  intro e he hs
  rw [computeP, List.mem_map] at he
  obtain ⟨a, _, rfl⟩ := he
  rw [pStep_size] at hs
  unfold pStep
  by_cases hca : a.size = s ∧ a.pDig = none
  · rw [if_pos hca]
    rfl
  · rw [if_neg hca]
    cases hpd : a.pDig with
    | none => exact absurd ⟨hs, hpd⟩ hca
    | some v => rfl

/-- The catalog invariant transfers along a map preserving size and both
digests. -/
theorem catInv_map (f : CatEntry → CatEntry)
    (hsz : ∀ e, (f e).size = e.size)
    (hp : ∀ e, (f e).pDig = e.pDig)
    (hfd : ∀ e, (f e).fDig = e.fDig)
    {c : Catalog} (hc : CatInv c) : CatInv (c.map f) := by
  intro e he
  rw [List.mem_map] at he
  obtain ⟨a, ha, rfl⟩ := he
  have hbucket : ∀ s, (bucketOf (c.map f) s).length = (bucketOf c s).length :=
    fun s => length_filter_map_eq f _ (fun e => by simp [hsz]) c
  have hcount : ∀ s d, pCount (c.map f) s d = pCount c s d :=
    fun s d => length_filter_map_eq f _ (fun e => by simp [hsz, hp]) c
  constructor
  · intro hps
    rw [hp a] at hps
    rw [hsz a, hbucket a.size]
    exact (hc a ha).1 hps
  · intro hfs
    rw [hfd a] at hfs
    rw [hp a, hsz a, hcount a.size a.pDig]
    exact (hc a ha).2 hfs

/-- Appending an alias path preserves the catalog invariant. -/
theorem addAlias_catInv (i : ID) (p : List String) {c : Catalog}
    (hc : CatInv c) : CatInv (addAlias i p c) := by
  unfold addAlias
  apply catInv_map
  · intro e; by_cases he : e.eid = i <;> simp [he]
  · intro e; by_cases he : e.eid = i <;> simp [he]
  · intro e; by_cases he : e.eid = i <;> simp [he]
  · exact hc

/-- Appending a digest-free entry preserves the catalog invariant. -/
theorem catInv_append_fresh {c : Catalog} (x : CatEntry)
    (hxp : x.pDig = none) (hxf : x.fDig = none) (hc : CatInv c) :
    CatInv (c ++ [x]) := by
  intro e he
  rw [List.mem_append] at he
  cases he with
  | inr hx =>
      rw [List.mem_singleton] at hx
      subst hx
      constructor
      · intro hps
        rw [hxp] at hps
        cases hps
      · intro hfs
        rw [hxf] at hfs
        cases hfs
  | inl hin =>
      have h1 := hc e hin
      constructor
      · intro hps
        exact le_trans (h1.1 hps) (length_filter_le_append _ c [x])
      · intro hfs
        obtain ⟨ha, hb⟩ := h1.2 hfs
        exact ⟨ha, le_trans hb (length_filter_le_append _ c [x])⟩

/-- The digest passes over a bucket of at least two entries preserve the
catalog invariant. -/
theorem computePF_catInv (D : List Nat → Nat) (s : Nat) (c1 : Catalog)
    (hc1 : CatInv c1) (hb : 2 ≤ (bucketOf c1 s).length) :
    CatInv (computeF D s (computeP D s c1)) := by
  intro e he
  rw [computeF, List.mem_map] at he
  obtain ⟨e2, he2, rfl⟩ := he
  have he2m := he2
  rw [computeP, List.mem_map] at he2m
  obtain ⟨e1, he1, he12⟩ := he2m
  have hbt : ∀ t, (bucketOf (computeF D s (computeP D s c1)) t).length =
      (bucketOf c1 t).length := by
    intro t
    rw [computeF, bucketOf_computeF, bucketOf_computeP]
  have hct : ∀ t d, pCount (computeF D s (computeP D s c1)) t d =
      pCount (computeP D s c1) t d := by
    intro t d
    rw [computeF, pCount_computeF]
  constructor
  · intro hps
    rw [fStep_pDig] at hps
    rw [fStep_size, hbt]
    subst he12
    by_cases hca : e1.size = s ∧ e1.pDig = none
    · rw [pStep_size, hca.1]
      exact hb
    · unfold pStep at hps
      rw [if_neg hca] at hps
      rw [pStep_size]
      exact (hc1 e1 he1).1 hps
  · intro hfs
    by_cases hcf : e2.size = s ∧ e2.fDig = none ∧
        2 ≤ pCount (computeP D s c1) s e2.pDig
    · constructor
      · rw [fStep_pDig]
        exact computeP_mem_isSome D s c1 e2 he2 hcf.1
      · rw [fStep_pDig, fStep_size, hct, hcf.1]
        exact hcf.2.2
    · unfold fStep at hfs ⊢
      rw [if_neg hcf] at hfs ⊢
      subst he12
      rw [pStep_fDig] at hfs
      have h2 := (hc1 e1 he1).2 hfs
      obtain ⟨hpsome, hcount⟩ := h2
      obtain ⟨x, hx⟩ := Option.isSome_iff_exists.mp hpsome
      have hpe : pStep D s e1 = e1 := pStep_of_some D s e1 x hx
      rw [hpe]
      refine ⟨hpsome, ?_⟩
      rw [hct, hx]
      exact le_trans (by rw [← hx]; exact hcount)
        (pCount_le_computeP D s c1 e1.size x)

/-- One insertion preserves the catalog invariant. -/
theorem insert_catInv (D : List Nat → Nat) (hdl : FileHandle) {c : Catalog}
    (hc : CatInv c) : CatInv (insert D hdl c) := by
  unfold insert
  by_cases hid : hasId c hdl.fid = true
  · rw [if_pos hid]
    exact addAlias_catInv hdl.fid hdl.path hc
  · rw [if_neg hid]
    have hfresh : CatInv (c ++ [newEntry hdl]) :=
      catInv_append_fresh (newEntry hdl) rfl rfl hc
    by_cases hbig : 2 ≤ (bucketOf (c ++ [newEntry hdl]) hdl.size).length
    · rw [if_pos hbig]
      exact computePF_catInv D hdl.size _ hfresh hbig
    · rw [if_neg hbig]
      exact hfresh

/-- Every catalog reachable by a sequence of insertions from the empty
catalog satisfies the laziness invariant. -/
theorem insertAll_catInv (D : List Nat → Nat) (hs : List FileHandle) :
    CatInv (insertAll D hs) := by
  have hstep : ∀ (l : List FileHandle) (c : Catalog), CatInv c →
      CatInv (l.foldl (fun c2 hd => insert D hd c2) c) := by
    intro l
    induction l with
    | nil => intro c hc; exact hc
    | cons hd t ih => intro c hc; exact ih _ (insert_catInv D hd hc)
  exact hstep hs [] (fun e he => absurd he (List.not_mem_nil e))

/-- Claim C2: for every sequence of catalog insertions, an entry alone in
its size bucket has neither digest computed (none of its bytes were ever
read), and an entry carrying a full digest lies in a first-bytes digest
group of at least two entries of its bucket. -/
theorem singleton_bucket_never_read (D : List Nat → Nat)
    (hs : List FileHandle) (e : CatEntry) (he : e ∈ insertAll D hs) :
    ((bucketOf (insertAll D hs) e.size).length = 1 →
      e.pDig = none ∧ e.fDig = none) ∧
    (e.fDig.isSome = true → 2 ≤ pCount (insertAll D hs) e.size e.pDig) := by
  have hinv := insertAll_catInv D hs e he
  constructor
  · intro hlen
    constructor
    · cases hpd : e.pDig with
      | none => rfl
      | some v =>
          have h2 := hinv.1 (by rw [hpd]; rfl)
          rw [hlen] at h2
          exact absurd h2 (by omega)
    · cases hfd : e.fDig with
      | none => rfl
      | some v =>
          have h2 := (hinv.2 (by rw [hfd]; rfl)).2
          have h3 := pCount_le_bucket (insertAll D hs) e.size e.pDig
          rw [hlen] at h3
          exact absurd (le_trans h2 h3) (by omega)
  · exact fun hfs => (hinv.2 hfs).2

/-- Witness for C2: the catalog after one insertion holds one singleton
bucket, and the instantiated statement evaluates. -/
theorem singleton_bucket_never_read_witness :
    ((bucketOf (insertAll sampleD [sampleH]) sampleE.size).length = 1 →
      sampleE.pDig = none ∧ sampleE.fDig = none) ∧
    (sampleE.fDig.isSome = true →
      2 ≤ pCount (insertAll sampleD [sampleH]) sampleE.size sampleE.pDig) :=
  singleton_bucket_never_read sampleD [sampleH] sampleE (by decide)

end Smlr

